import Mathlib

/-!
Verification of the semantic-resolution core of a FSH compiler: the
cross-document fishing resolver (FSHTank), the type-constraint narrowing
algorithm, and the export dependency scheduler.  Definitions are translated
from the repository sources where those are available (FSHTank, Instance,
Invariant); the type-constraint resolver and the export scheduler are
modelled from the specification, since only their test suites are part of
the available sources.
-/

namespace Sushi

/-- FSH code value, as carried by assignment rules (fshtypes FshCode). -/
structure FshCode where
  code : String
deriving DecidableEq, Repr

/-- Value carried by an assignment rule: either a plain string or an FshCode.
Other value kinds are never inspected by the fishing resolver, so they are
collapsed into a single catch-all alternative. -/
inductive RuleValue where
  | str (s : String)
  | fcode (c : FshCode)
  | other
deriving DecidableEq, Repr

/-- Usage marker of an Instance (fshtypes InstanceUsage). -/
inductive InstanceUsage where
  | Example
  | Definition
  | Inline
deriving DecidableEq, Repr

/-- A rule attached to an Instance: an AssignmentRule or an InsertRule. -/
inductive InstanceRule where
  | assignment (path : String) (value : RuleValue)
  | insert (ruleSet : String)
deriving DecidableEq, Repr

/-- FSH Instance entity (src/src/fshtypes/Instance.ts). -/
structure Instance where
  name : String
  id : String
  instanceOf : Option String
  usage : Option InstanceUsage
  rules : List InstanceRule
deriving DecidableEq, Repr

/-- The Instance constructor (src/src/fshtypes/Instance.ts): the id is
initialized to the name, the usage to Example, and the rule list to empty. -/
def Instance.make (name : String) : Instance :=
  { name := name, id := name, instanceOf := none, usage := some .Example, rules := [] }

/-- FSH Profile entity, reduced to the fields the fishing resolver reads. -/
structure Profile where
  name : String
  id : String
deriving DecidableEq, Repr

/-- FSH Extension entity, reduced to the fields the fishing resolver reads. -/
structure Extension where
  name : String
  id : String
deriving DecidableEq, Repr

/-- FSH Logical entity, reduced to the fields the fishing resolver reads. -/
structure Logical where
  name : String
  id : String
deriving DecidableEq, Repr

/-- FSH Resource entity, reduced to the fields the fishing resolver reads. -/
structure Resource where
  name : String
  id : String
deriving DecidableEq, Repr

/-- FSH value set entity, reduced to the fields the fishing resolver reads. -/
structure FshValueSet where
  name : String
  id : String
deriving DecidableEq, Repr

/-- FSH code system entity, reduced to the fields the fishing resolver reads. -/
structure FshCodeSystem where
  name : String
  id : String
deriving DecidableEq, Repr

/-- FSH Invariant entity (src/unnamed/part_001): it stores only a name. -/
structure Invariant where
  name : String
deriving DecidableEq, Repr

/-- Read-only id of an Invariant: it just returns the name
(src/unnamed/part_001). -/
def Invariant.id (i : Invariant) : String := i.name

/-- FSH RuleSet entity: the fishing resolver reads only its name. -/
structure RuleSet where
  name : String
deriving DecidableEq, Repr

/-- FSH Mapping entity: the fishing resolver reads only its name. -/
structure Mapping where
  name : String
deriving DecidableEq, Repr

/-- A parse unit: named collections of entities plus an alias table.  Maps
keyed by name are modelled as lists in insertion order, which is the order a
JavaScript Map iterates its values. -/
structure FSHDocument where
  profiles : List Profile
  extensions : List Extension
  logicals : List Logical
  resources : List Resource
  instances : List Instance
  valueSets : List FshValueSet
  codeSystems : List FshCodeSystem
  invariants : List Invariant
  ruleSets : List RuleSet
  mappings : List Mapping
  aliases : List (String × String)
deriving DecidableEq, Repr

/-- Configuration: the fishing resolver uses only the canonical base URL. -/
structure Configuration where
  canonical : String
deriving DecidableEq, Repr

/-- The FSHTank: an ordered list of documents plus a configuration
(src/unnamed/part_000). -/
structure FSHTank where
  docs : List FSHDocument
  config : Configuration
deriving DecidableEq, Repr

def getAllProfiles (tank : FSHTank) : List Profile :=
  (tank.docs.map (fun d => d.profiles)).flatten

def getAllExtensions (tank : FSHTank) : List Extension :=
  (tank.docs.map (fun d => d.extensions)).flatten

def getAllLogicals (tank : FSHTank) : List Logical :=
  (tank.docs.map (fun d => d.logicals)).flatten

def getAllResources (tank : FSHTank) : List Resource :=
  (tank.docs.map (fun d => d.resources)).flatten

def getAllInstances (tank : FSHTank) : List Instance :=
  (tank.docs.map (fun d => d.instances)).flatten

def getAllValueSets (tank : FSHTank) : List FshValueSet :=
  (tank.docs.map (fun d => d.valueSets)).flatten

def getAllCodeSystems (tank : FSHTank) : List FshCodeSystem :=
  (tank.docs.map (fun d => d.codeSystems)).flatten

def getAllInvariants (tank : FSHTank) : List Invariant :=
  (tank.docs.map (fun d => d.invariants)).flatten

def getAllRuleSets (tank : FSHTank) : List RuleSet :=
  (tank.docs.map (fun d => d.ruleSets)).flatten

def getAllMappings (tank : FSHTank) : List Mapping :=
  (tank.docs.map (fun d => d.mappings)).flatten

/-- Lookup of a name in one document alias table (a JavaScript Map.get). -/
def aliasGet (d : FSHDocument) (name : String) : Option String :=
  d.aliases.lookup name

/-- FSHTank.resolveAlias (src/unnamed/part_000, lines 123-129).  The source
tests the found alias for truthiness, so a document binding the name to the
empty string is skipped exactly like a document not binding it at all. -/
def resolveAlias : List FSHDocument → String → Option String
  | [], _ => none
  | d :: rest, name =>
    match aliasGet d name with
    | some s => if s = "" then resolveAlias rest name else some s
    | none => resolveAlias rest name

/-- The alias-resolved item used by fish: the resolved alias if any,
otherwise the original item (the nullish coalescing on line 147). -/
def resolveAliasOrSelf (docs : List FSHDocument) (name : String) : String :=
  (resolveAlias docs name).getD name

/-- Canonical URL of a definition.  Modelled from the spec:
getUrlFromFshDefinition is not among the sources; the spec defines the
canonical URL as the configured base URL plus the entity id, which we join
with a slash. -/
def getUrl (canonical id : String) : String := canonical ++ "/" ++ id

/-- The searchable entity kinds (utils/Fishable Type). -/
inductive FType where
  | profile
  | extension
  | logical
  | resource
  | valueSet
  | codeSystem
  | inst
  | invariant
  | ruleSet
  | mapping
  | type
deriving DecidableEq, Repr

/-- The union of entity kinds that fish can return. -/
inductive FishResult where
  | profile (p : Profile)
  | extension (e : Extension)
  | logical (l : Logical)
  | resource (r : Resource)
  | valueSet (v : FshValueSet)
  | codeSystem (c : FshCodeSystem)
  | inst (i : Instance)
  | invariant (i : Invariant)
  | ruleSet (r : RuleSet)
  | mapping (m : Mapping)
deriving DecidableEq, Repr

/-- Does a rule assign exactly the given value at the given path. -/
def isAssignment : InstanceRule → String → RuleValue → Bool
  | .assignment p val, path, v => decide (p = path ∧ val = v)
  | _, _, _ => false

def hasAssignment (i : Instance) (path : String) (v : RuleValue) : Bool :=
  i.rules.any (fun r => isAssignment r path v)

/-- Does a rule assign an FshCode with the given code at the given path. -/
def isCodeAssignment : InstanceRule → String → String → Bool
  | .assignment p (.fcode c), path, code => decide (p = path ∧ c.code = code)
  | _, _, _ => false

def hasCodeAssignment (i : Instance) (path code : String) : Bool :=
  i.rules.any (fun r => isCodeAssignment r path code)

/-- Name, id or canonical URL equals the item (the three-way match used for
the first six kinds in fish). -/
def matchesItem (canonical item name id : String) : Bool :=
  decide (name = item ∨ id = item ∨ getUrl canonical id = item)

def findDirectProfile (tank : FSHTank) (item : String) : Option Profile :=
  (getAllProfiles tank).find? (fun p => matchesItem tank.config.canonical item p.name p.id)

def findDirectExtension (tank : FSHTank) (item : String) : Option Extension :=
  (getAllExtensions tank).find? (fun e => matchesItem tank.config.canonical item e.name e.id)

def findDirectLogical (tank : FSHTank) (item : String) : Option Logical :=
  (getAllLogicals tank).find? (fun l => matchesItem tank.config.canonical item l.name l.id)

def findDirectResource (tank : FSHTank) (item : String) : Option Resource :=
  (getAllResources tank).find? (fun r => matchesItem tank.config.canonical item r.name r.id)

def findDirectValueSet (tank : FSHTank) (item : String) : Option FshValueSet :=
  (getAllValueSets tank).find? (fun v => matchesItem tank.config.canonical item v.name v.id)

def findDirectCodeSystem (tank : FSHTank) (item : String) : Option FshCodeSystem :=
  (getAllCodeSystems tank).find? (fun c => matchesItem tank.config.canonical item c.name c.id)

/-- Masquerading Profile (src/unnamed/part_000, lines 176-196): a
definitional Instance of StructureDefinition with a derivation = constraint
code rule and no rule assigning the plain string Extension at path type. -/
def findMasqueradingProfile (tank : FSHTank) (item : String) : Option Instance :=
  (getAllInstances tank).find? (fun i =>
    decide (i.instanceOf = some ("StructureDefinition")) &&
    decide (i.usage = some .Definition) &&
    matchesItem tank.config.canonical item i.name i.id &&
    hasCodeAssignment i ("derivation") ("constraint") &&
    !(hasAssignment i ("type") (.str ("Extension"))))

/-- Masquerading Extension (lines 206-229): like a masquerading Profile but
with a rule assigning the plain string Extension at path type. -/
def findMasqueradingExtension (tank : FSHTank) (item : String) : Option Instance :=
  (getAllInstances tank).find? (fun i =>
    decide (i.instanceOf = some ("StructureDefinition")) &&
    decide (i.usage = some .Definition) &&
    matchesItem tank.config.canonical item i.name i.id &&
    hasCodeAssignment i ("derivation") ("constraint") &&
    hasAssignment i ("type") (.str ("Extension")))

/-- Masquerading Logical (lines 238-261): derivation = specialization and
kind = logical, both as FshCode assignments. -/
def findMasqueradingLogical (tank : FSHTank) (item : String) : Option Instance :=
  (getAllInstances tank).find? (fun i =>
    decide (i.instanceOf = some ("StructureDefinition")) &&
    decide (i.usage = some .Definition) &&
    matchesItem tank.config.canonical item i.name i.id &&
    hasCodeAssignment i ("derivation") ("specialization") &&
    hasCodeAssignment i ("kind") ("logical"))

/-- Masquerading Resource (lines 270-293): derivation = specialization and
kind = resource, both as FshCode assignments. -/
def findMasqueradingResource (tank : FSHTank) (item : String) : Option Instance :=
  (getAllInstances tank).find? (fun i =>
    decide (i.instanceOf = some ("StructureDefinition")) &&
    decide (i.usage = some .Definition) &&
    matchesItem tank.config.canonical item i.name i.id &&
    hasCodeAssignment i ("derivation") ("specialization") &&
    hasCodeAssignment i ("kind") ("resource"))

/-- Masquerading ValueSet (lines 302-311): a definitional Instance of
ValueSet matched by name, id or URL, with no extra marker rules. -/
def findMasqueradingValueSet (tank : FSHTank) (item : String) : Option Instance :=
  (getAllInstances tank).find? (fun i =>
    decide (i.instanceOf = some ("ValueSet")) &&
    decide (i.usage = some .Definition) &&
    matchesItem tank.config.canonical item i.name i.id)

/-- Masquerading CodeSystem (lines 320-329). -/
def findMasqueradingCodeSystem (tank : FSHTank) (item : String) : Option Instance :=
  (getAllInstances tank).find? (fun i =>
    decide (i.instanceOf = some ("CodeSystem")) &&
    decide (i.usage = some .Definition) &&
    matchesItem tank.config.canonical item i.name i.id)

/-- One arm of the switch inside the fish loop (lines 165-347): search the
direct entities of the kind, then fall back to masquerading Instances for
the six definition kinds.  Instances are matched by name or id only,
Invariants, RuleSets and Mappings by name only. -/
def searchType (tank : FSHTank) (item : String) : FType → Option FishResult
  | .profile =>
    match findDirectProfile tank item with
    | some p => some (.profile p)
    | none => (findMasqueradingProfile tank item).map .inst
  | .extension =>
    match findDirectExtension tank item with
    | some e => some (.extension e)
    | none => (findMasqueradingExtension tank item).map .inst
  | .logical =>
    match findDirectLogical tank item with
    | some l => some (.logical l)
    | none => (findMasqueradingLogical tank item).map .inst
  | .resource =>
    match findDirectResource tank item with
    | some r => some (.resource r)
    | none => (findMasqueradingResource tank item).map .inst
  | .valueSet =>
    match findDirectValueSet tank item with
    | some v => some (.valueSet v)
    | none => (findMasqueradingValueSet tank item).map .inst
  | .codeSystem =>
    match findDirectCodeSystem tank item with
    | some c => some (.codeSystem c)
    | none => (findMasqueradingCodeSystem tank item).map .inst
  | .inst =>
    ((getAllInstances tank).find? (fun i => decide (i.name = item ∨ i.id = item))).map .inst
  | .invariant =>
    ((getAllInvariants tank).find? (fun i => decide (i.name = item))).map .invariant
  | .ruleSet =>
    ((getAllRuleSets tank).find? (fun r => decide (r.name = item))).map .ruleSet
  | .mapping =>
    ((getAllMappings tank).find? (fun m => decide (m.name = item))).map .mapping
  | .type => none

/-- The fixed priority order used when no kinds are passed (lines 150-163). -/
def defaultTypes : List FType :=
  [.profile, .extension, .logical, .resource, .valueSet, .codeSystem,
   .inst, .invariant, .ruleSet, .mapping]

/-- FSHTank.fish (src/unnamed/part_000, lines 131-354): resolve the alias
once, default the kind list, and return the first kind that matches. -/
def fish (tank : FSHTank) (item : String) (types : List FType) : Option FishResult :=
  let it := resolveAliasOrSelf tank.docs item
  let ts := match types with
    | [] => defaultTypes
    | _ => types
  ts.findSome? (searchType tank it)

/-! ### Concrete sample data used by witnesses and counterexamples -/

def emptyDoc : FSHDocument :=
  { profiles := [], extensions := [], logicals := [], resources := [], instances := [],
    valueSets := [], codeSystems := [], invariants := [], ruleSets := [], mappings := [],
    aliases := [] }

def extDual : Extension := { name := "Dual", id := "dual" }

def instDual : Instance :=
  { name := "Dual", id := "dual2", instanceOf := none, usage := some .Example, rules := [] }

def tankC2 : FSHTank :=
  { docs := [{ emptyDoc with extensions := [extDual], instances := [instDual] }],
    config := { canonical := "http://ex" } }

def instMasqRes : Instance :=
  { name := "MyRes", id := "my-res", instanceOf := some ("StructureDefinition"),
    usage := some .Definition,
    rules := [.assignment ("derivation") (.fcode { code := "specialization" }),
              .assignment ("kind") (.fcode { code := "resource" })] }

def tankC7 : FSHTank :=
  { docs := [{ emptyDoc with instances := [instMasqRes] }],
    config := { canonical := "http://ex" } }

def instC8 : Instance :=
  { name := "Foo", id := "inst1", instanceOf := none, usage := some .Example, rules := [] }

def tankC8 : FSHTank :=
  { docs := [{ emptyDoc with instances := [instC8] }],
    config := { canonical := "http://ex" } }

def docA : FSHDocument := { emptyDoc with aliases := [("AKA", "")] }

def docB : FSHDocument := { emptyDoc with aliases := [("AKA", "http://ex/target")] }

/-! ### Generic helper lemmas -/

theorem findSome?_eq_of_prefix_none {α β : Type} (f : α → Option β) :
    ∀ (l : List α) (i : Nat) (hi : i < l.length) (r : β),
      (∀ j (hj : j < i), f (l.get ⟨j, Nat.lt_trans hj hi⟩) = none) →
      f (l.get ⟨i, hi⟩) = some r → l.findSome? f = some r := by
  intro l
  induction l with
  | nil => intro i hi; simp at hi
  | cons a l ih =>
    intro i hi r hnone hsome
    cases i with
    | zero =>
      have hsome2 : f a = some r := hsome
      rw [List.findSome?_cons, hsome2]
    | succ i =>
      have h0 : f a = none := hnone 0 (Nat.succ_pos i)
      rw [List.findSome?_cons, h0]
      have hsome2 : f (l.get ⟨i, Nat.lt_of_succ_lt_succ hi⟩) = some r := hsome
      exact ih i (Nat.lt_of_succ_lt_succ hi) r
        (fun j hj => hnone (j + 1) (Nat.succ_lt_succ hj)) hsome2

/-! ### Claim C2: fixed priority order in fish -/

/-- C2: fish with no kind filter searches the fixed priority order Profile,
Extension, Logical, Resource, ValueSet, CodeSystem, Instance, Invariant,
RuleSet, Mapping, and returns the match from the earliest kind that yields
one, never continuing to later kinds. -/
theorem fish_priority_order (tank : FSHTank) (item : String) (i : Nat)
    (hi : i < defaultTypes.length) (r : FishResult)
    (hnone : ∀ j (hj : j < i),
      searchType tank (resolveAliasOrSelf tank.docs item) (defaultTypes.get ⟨j, Nat.lt_trans hj hi⟩) = none)
    (hsome : searchType tank (resolveAliasOrSelf tank.docs item) (defaultTypes.get ⟨i, hi⟩) = some r) :
    fish tank item [] = some r := by
  show defaultTypes.findSome? (searchType tank (resolveAliasOrSelf tank.docs item)) = some r
  exact findSome?_eq_of_prefix_none _ defaultTypes i hi r hnone hsome

/-- Witness for C2: an Extension and an Instance share the name Dual; fish
with no kind filter returns the Extension, the earlier kind. -/
theorem fish_priority_order_witness : fish tankC2 ("Dual") [] = some (.extension extDual) := by
  apply fish_priority_order tankC2 ("Dual") 1 (by decide) (.extension extDual)
  · intro j hj
    have hj0 : j = 0 := by omega
    subst hj0
    rfl
  · rfl

/-! ### Claim C7: masquerading Resource instances -/

/-- C7: when no first-class Resource entity matches, a successful fish for
kind Resource returns a masquerading Instance: a definitional Instance of
StructureDefinition carrying a derivation = specialization rule and a
kind = resource rule, matched by name, id or canonical URL. -/
theorem fish_resource_masquerade (tank : FSHTank) (item : String) (r : FishResult)
    (hdirect : findDirectResource tank (resolveAliasOrSelf tank.docs item) = none)
    (hfish : fish tank item [.resource] = some r) :
    ∃ i : Instance, r = .inst i ∧
      i.instanceOf = some ("StructureDefinition") ∧
      i.usage = some .Definition ∧
      hasCodeAssignment i ("derivation") ("specialization") = true ∧
      hasCodeAssignment i ("kind") ("resource") = true ∧
      (i.name = resolveAliasOrSelf tank.docs item ∨
        i.id = resolveAliasOrSelf tank.docs item ∨
        getUrl tank.config.canonical i.id = resolveAliasOrSelf tank.docs item) := by
  have h1 : searchType tank (resolveAliasOrSelf tank.docs item) .resource = some r := by
    have h2 : [FType.resource].findSome?
        (searchType tank (resolveAliasOrSelf tank.docs item)) = some r := hfish
    rw [List.findSome?_cons] at h2
    cases h3 : searchType tank (resolveAliasOrSelf tank.docs item) FType.resource with
    | none => rw [h3] at h2; exact h2
    | some v => rw [h3] at h2; exact h2
  unfold searchType at h1
  rw [hdirect] at h1
  cases h4 : findMasqueradingResource tank (resolveAliasOrSelf tank.docs item) with
  | none => rw [h4] at h1; simp at h1
  | some i =>
    rw [h4] at h1
    simp only [Option.map_some'] at h1
    unfold findMasqueradingResource at h4
    have h5 := List.find?_some h4
    simp only [Bool.and_eq_true, decide_eq_true_eq, matchesItem] at h5
    refine ⟨i, (Option.some.inj h1).symm, ?_, ?_, ?_, ?_, ?_⟩
    · exact h5.1.1.1.1
    · exact h5.1.1.1.2
    · exact h5.1.2
    · exact h5.2
    · exact h5.1.1.2

/-- Witness for C7 at a tank holding one masquerading-Resource Instance. -/
theorem fish_resource_masquerade_witness :
    ∃ i : Instance, FishResult.inst instMasqRes = .inst i ∧
      i.instanceOf = some ("StructureDefinition") ∧
      i.usage = some .Definition ∧
      hasCodeAssignment i ("derivation") ("specialization") = true ∧
      hasCodeAssignment i ("kind") ("resource") = true ∧
      (i.name = resolveAliasOrSelf tankC7.docs ("MyRes") ∨
        i.id = resolveAliasOrSelf tankC7.docs ("MyRes") ∨
        getUrl tankC7.config.canonical i.id = resolveAliasOrSelf tankC7.docs ("MyRes")) :=
  fish_resource_masquerade tankC7 ("MyRes") (.inst instMasqRes) (by rfl) (by rfl)

/-! ### Claim C8: matching scope per kind -/

/-- C8 counterexample: the Instance kind matches by name or id only.  An
Instance whose canonical URL equals the fished item is not found, refuting
the claim that every kind in the search order matches by name, id or
canonical URL. -/
theorem fish_match_scope_cex :
    instC8 ∈ getAllInstances tankC8 ∧
    getUrl tankC8.config.canonical instC8.id = "http://ex/inst1" ∧
    resolveAliasOrSelf tankC8.docs ("http://ex/inst1") = "http://ex/inst1" ∧
    fish tankC8 ("http://ex/inst1") [.inst] = none := by
  exact ⟨by decide, rfl, rfl, rfl⟩

/-- C8 amended: direct entities of the kinds Profile, Extension, Logical,
Resource, ValueSet and CodeSystem are matched by name, id or canonical URL
(base url plus id); Instances are matched by name or id only; Invariants,
RuleSets and Mappings by name only. -/
theorem fish_match_scopes (tank : FSHTank) (item : String) :
    ((findDirectProfile tank item).isSome ↔
      ∃ p ∈ getAllProfiles tank,
        p.name = item ∨ p.id = item ∨ getUrl tank.config.canonical p.id = item) ∧
    ((findDirectExtension tank item).isSome ↔
      ∃ e ∈ getAllExtensions tank,
        e.name = item ∨ e.id = item ∨ getUrl tank.config.canonical e.id = item) ∧
    ((findDirectLogical tank item).isSome ↔
      ∃ l ∈ getAllLogicals tank,
        l.name = item ∨ l.id = item ∨ getUrl tank.config.canonical l.id = item) ∧
    ((findDirectResource tank item).isSome ↔
      ∃ r ∈ getAllResources tank,
        r.name = item ∨ r.id = item ∨ getUrl tank.config.canonical r.id = item) ∧
    ((findDirectValueSet tank item).isSome ↔
      ∃ v ∈ getAllValueSets tank,
        v.name = item ∨ v.id = item ∨ getUrl tank.config.canonical v.id = item) ∧
    ((findDirectCodeSystem tank item).isSome ↔
      ∃ c ∈ getAllCodeSystems tank,
        c.name = item ∨ c.id = item ∨ getUrl tank.config.canonical c.id = item) ∧
    ((searchType tank item .inst).isSome ↔
      ∃ i ∈ getAllInstances tank, i.name = item ∨ i.id = item) ∧
    ((searchType tank item .invariant).isSome ↔
      ∃ i ∈ getAllInvariants tank, i.name = item) ∧
    ((searchType tank item .ruleSet).isSome ↔
      ∃ r ∈ getAllRuleSets tank, r.name = item) ∧
    ((searchType tank item .mapping).isSome ↔
      ∃ m ∈ getAllMappings tank, m.name = item) := by
  refine ⟨?_, ?_, ?_, ?_, ?_, ?_, ?_, ?_, ?_, ?_⟩ <;>
    simp [findDirectProfile, findDirectExtension, findDirectLogical, findDirectResource,
      findDirectValueSet, findDirectCodeSystem, searchType, matchesItem, List.find?_isSome]

/-! ### Claim C9: alias resolution order -/

/-- C9 counterexample: the first document containing the alias binds it to
the empty string; the claim predicts that document wins, but resolveAlias
skips the falsy binding and returns the second document's value. -/
theorem resolveAlias_first_containing_cex :
    aliasGet docA ("AKA") = some ("") ∧
    resolveAlias [docA, docB] ("AKA") = some ("http://ex/target") ∧
    some ("http://ex/target") ≠ (some ("") : Option String) := by
  exact ⟨rfl, rfl, by decide⟩

/-- Evaluation of resolveAlias at a document whose table does not bind the
name: the scan continues with the rest. -/
theorem resolveAlias_cons_none (d : FSHDocument) (rest : List FSHDocument) (name : String)
    (hg : aliasGet d name = none) :
    resolveAlias (d :: rest) name = resolveAlias rest name := by
  simp only [resolveAlias, hg]

/-- Evaluation of resolveAlias at a document binding the name: the bound
string is returned unless it is empty, in which case the scan continues. -/
theorem resolveAlias_cons_some (d : FSHDocument) (rest : List FSHDocument) (name s : String)
    (hg : aliasGet d name = some s) :
    resolveAlias (d :: rest) name = if s = "" then resolveAlias rest name else some s := by
  simp only [resolveAlias, hg]

theorem resolveAlias_eq_none (name : String) :
    ∀ docs : List FSHDocument,
      resolveAlias docs name = none ↔
        ∀ d ∈ docs, aliasGet d name = none ∨ aliasGet d name = some ("") := by
  intro docs
  induction docs with
  | nil => simp [resolveAlias]
  | cons d rest ih =>
    cases hg : aliasGet d name with
    | none =>
      rw [resolveAlias_cons_none d rest name hg, ih]
      constructor
      · intro h x hx
        rcases List.mem_cons.mp hx with rfl | hx
        · exact Or.inl hg
        · exact h x hx
      · intro h x hx
        exact h x (List.mem_cons_of_mem d hx)
    | some s =>
      rw [resolveAlias_cons_some d rest name s hg]
      by_cases hs : s = ""
      · subst hs
        rw [if_pos rfl, ih]
        constructor
        · intro h x hx
          rcases List.mem_cons.mp hx with rfl | hx
          · exact Or.inr hg
          · exact h x hx
        · intro h x hx
          exact h x (List.mem_cons_of_mem d hx)
      · rw [if_neg hs]
        constructor
        · intro h; exact absurd h (by simp)
        · intro h
          rcases h d (List.mem_cons_self d rest) with h1 | h1
          · rw [hg] at h1; exact absurd h1 (by simp)
          · rw [hg] at h1
            exact absurd (Option.some.inj h1) hs

theorem resolveAlias_some_decomp (name v : String) :
    ∀ docs, resolveAlias docs name = some v →
      v ≠ "" ∧ ∃ pre d post, docs = pre ++ d :: post ∧ aliasGet d name = some v ∧
        ∀ d' ∈ pre, aliasGet d' name = none ∨ aliasGet d' name = some ("") := by
  intro docs
  induction docs with
  | nil => intro h; exact absurd h (by simp [resolveAlias])
  | cons d rest ih =>
    intro h
    cases hg : aliasGet d name with
    | none =>
      rw [resolveAlias_cons_none d rest name hg] at h
      obtain ⟨hv, pre, d', post, hdocs, hd', hpre⟩ := ih h
      refine ⟨hv, d :: pre, d', post, by rw [hdocs]; rfl, hd', ?_⟩
      intro x hx
      rcases List.mem_cons.mp hx with rfl | hx
      · exact Or.inl hg
      · exact hpre x hx
    | some s =>
      rw [resolveAlias_cons_some d rest name s hg] at h
      by_cases hs : s = ""
      · subst hs
        rw [if_pos rfl] at h
        obtain ⟨hv, pre, d', post, hdocs, hd', hpre⟩ := ih h
        refine ⟨hv, d :: pre, d', post, by rw [hdocs]; rfl, hd', ?_⟩
        intro x hx
        rcases List.mem_cons.mp hx with rfl | hx
        · exact Or.inr hg
        · exact hpre x hx
      · rw [if_neg hs] at h
        have hv : s = v := Option.some.inj h
        subst hv
        exact ⟨hs, [], d, rest, rfl, hg, by simp⟩

theorem resolveAlias_append_this (name v : String) (hv : v ≠ "") :
    ∀ (pre : List FSHDocument) (d : FSHDocument) (post : List FSHDocument),
      aliasGet d name = some v →
      (∀ d' ∈ pre, aliasGet d' name = none ∨ aliasGet d' name = some ("")) →
      resolveAlias (pre ++ d :: post) name = some v := by
  intro pre
  induction pre with
  | nil =>
    intro d post hd _
    rw [List.nil_append, resolveAlias_cons_some d post name v hd, if_neg hv]
  | cons p pre ih =>
    intro d post hd hpre
    have hp := hpre p (List.mem_cons_self p pre)
    rw [List.cons_append]
    rcases hp with hp | hp
    · rw [resolveAlias_cons_none p (pre ++ d :: post) name hp]
      exact ih d post hd (fun x hx => hpre x (List.mem_cons_of_mem p hx))
    · rw [resolveAlias_cons_some p (pre ++ d :: post) name ("") hp, if_pos rfl]
      exact ih d post hd (fun x hx => hpre x (List.mem_cons_of_mem p hx))

/-- C9 amended: resolveAlias returns the value bound by the first document
whose alias table binds the name to a non-empty string; documents that do
not bind the name, or bind it to the empty string, are skipped.  When no
document provides a non-empty binding, fish keeps the original name. -/
theorem resolveAlias_spec (docs : List FSHDocument) (name : String) :
    (∀ v : String, resolveAlias docs name = some v ↔
      v ≠ "" ∧ ∃ pre d post, docs = pre ++ d :: post ∧ aliasGet d name = some v ∧
        ∀ d' ∈ pre, aliasGet d' name = none ∨ aliasGet d' name = some ("")) ∧
    ((∀ d ∈ docs, aliasGet d name = none ∨ aliasGet d name = some ("")) →
      resolveAliasOrSelf docs name = name) := by
  constructor
  · intro v
    constructor
    · exact resolveAlias_some_decomp name v docs
    · rintro ⟨hv, pre, d, post, rfl, hd, hpre⟩
      exact resolveAlias_append_this name v hv pre d post hd hpre
  · intro h
    unfold resolveAliasOrSelf
    rw [(resolveAlias_eq_none name docs).mpr h]
    rfl

/-- Witness for C9: the amended characterization applied at concrete
documents. -/
theorem resolveAlias_spec_witness :
    resolveAlias [docA, docB] ("AKA") = some ("http://ex/target") ∧
    resolveAliasOrSelf [docA] ("ZZZ") = "ZZZ" :=
  ⟨((resolveAlias_spec [docA, docB] ("AKA")).1 ("http://ex/target")).mpr
      ⟨by decide, [docA], docB, [], rfl, by decide, by decide⟩,
    (resolveAlias_spec [docA] ("ZZZ")).2 (by decide)⟩

/-! ### Claim C10: default Instances never masquerade -/

theorem masquerade_usage_definition (tank : FSHTank) (item : String) (i : Instance)
    (h : findMasqueradingProfile tank item = some i ∨
      findMasqueradingExtension tank item = some i ∨
      findMasqueradingLogical tank item = some i ∨
      findMasqueradingResource tank item = some i ∨
      findMasqueradingValueSet tank item = some i ∨
      findMasqueradingCodeSystem tank item = some i) :
    i.usage = some .Definition := by
  unfold findMasqueradingProfile findMasqueradingExtension findMasqueradingLogical
    findMasqueradingResource findMasqueradingValueSet findMasqueradingCodeSystem at h
  rcases h with h | h | h | h | h | h <;>
  · have hp := List.find?_some h
    simp only [Bool.and_eq_true, decide_eq_true_eq] at hp
    tauto

/-- C10: every Instance constructed from a name has id equal to that name
and usage Example, and an Instance whose usage is not Definition is never
returned by a kind search as a masquerading Profile, Extension, Logical,
Resource, ValueSet or CodeSystem. -/
theorem instance_default_not_masquerading :
    (∀ nm : String, (Instance.make nm).id = nm ∧ (Instance.make nm).usage = some .Example) ∧
    (∀ (tank : FSHTank) (item : String) (i : Instance) (t : FType),
      (t = .profile ∨ t = .extension ∨ t = .logical ∨ t = .resource ∨
        t = .valueSet ∨ t = .codeSystem) →
      i.usage ≠ some .Definition →
      searchType tank item t ≠ some (.inst i)) := by
  constructor
  · intro nm; exact ⟨rfl, rfl⟩
  · intro tank item i t ht husage hcontra
    have husage2 : i.usage = some .Definition := by
      rcases ht with rfl | rfl | rfl | rfl | rfl | rfl <;>
        unfold searchType at hcontra
      · cases hd : findDirectProfile tank item with
        | some p => rw [hd] at hcontra; simp at hcontra
        | none =>
          rw [hd] at hcontra
          cases hm : findMasqueradingProfile tank item with
          | none => rw [hm] at hcontra; simp at hcontra
          | some j =>
            rw [hm] at hcontra
            simp only [Option.map_some', Option.some.injEq, FishResult.inst.injEq] at hcontra
            subst hcontra
            exact masquerade_usage_definition tank item j (Or.inl hm)
      · cases hd : findDirectExtension tank item with
        | some p => rw [hd] at hcontra; simp at hcontra
        | none =>
          rw [hd] at hcontra
          cases hm : findMasqueradingExtension tank item with
          | none => rw [hm] at hcontra; simp at hcontra
          | some j =>
            rw [hm] at hcontra
            simp only [Option.map_some', Option.some.injEq, FishResult.inst.injEq] at hcontra
            subst hcontra
            exact masquerade_usage_definition tank item j (Or.inr (Or.inl hm))
      · cases hd : findDirectLogical tank item with
        | some p => rw [hd] at hcontra; simp at hcontra
        | none =>
          rw [hd] at hcontra
          cases hm : findMasqueradingLogical tank item with
          | none => rw [hm] at hcontra; simp at hcontra
          | some j =>
            rw [hm] at hcontra
            simp only [Option.map_some', Option.some.injEq, FishResult.inst.injEq] at hcontra
            subst hcontra
            exact masquerade_usage_definition tank item j (Or.inr (Or.inr (Or.inl hm)))
      · cases hd : findDirectResource tank item with
        | some p => rw [hd] at hcontra; simp at hcontra
        | none =>
          rw [hd] at hcontra
          cases hm : findMasqueradingResource tank item with
          | none => rw [hm] at hcontra; simp at hcontra
          | some j =>
            rw [hm] at hcontra
            simp only [Option.map_some', Option.some.injEq, FishResult.inst.injEq] at hcontra
            subst hcontra
            exact masquerade_usage_definition tank item j (Or.inr (Or.inr (Or.inr (Or.inl hm))))
      · cases hd : findDirectValueSet tank item with
        | some p => rw [hd] at hcontra; simp at hcontra
        | none =>
          rw [hd] at hcontra
          cases hm : findMasqueradingValueSet tank item with
          | none => rw [hm] at hcontra; simp at hcontra
          | some j =>
            rw [hm] at hcontra
            simp only [Option.map_some', Option.some.injEq, FishResult.inst.injEq] at hcontra
            subst hcontra
            exact masquerade_usage_definition tank item j
              (Or.inr (Or.inr (Or.inr (Or.inr (Or.inl hm)))))
      · cases hd : findDirectCodeSystem tank item with
        | some p => rw [hd] at hcontra; simp at hcontra
        | none =>
          rw [hd] at hcontra
          cases hm : findMasqueradingCodeSystem tank item with
          | none => rw [hm] at hcontra; simp at hcontra
          | some j =>
            rw [hm] at hcontra
            simp only [Option.map_some', Option.some.injEq, FishResult.inst.injEq] at hcontra
            subst hcontra
            exact masquerade_usage_definition tank item j
              (Or.inr (Or.inr (Or.inr (Or.inr (Or.inr hm)))))
    exact husage husage2

/-- Witness for C10: a freshly made Instance keeps its name as id, and the
Example Instance in the sample tank is never returned as a masquerading
Profile. -/
theorem instance_default_not_masquerading_witness :
    (Instance.make ("X")).id = "X" ∧
    searchType tankC2 ("Dual") .profile ≠ some (.inst instDual) :=
  ⟨(instance_default_not_masquerading.1 ("X")).1,
    instance_default_not_masquerading.2 tankC2 ("Dual") instDual .profile
      (Or.inl rfl) (by decide)⟩

/-!
### The Type Constraint Resolver

Modelled from the spec: the narrowing algorithm of ElementDefinition
constrainType is not among the sources (only its test suite is), so the
whole component below follows section 4.2 of the specification, with the
test suite fixing the points the prose leaves open.
-/

/-- A full type record returned by the Type Hierarchy Oracle: code (the
structure type), canonical URL, parent URL and abstractness. -/
structure TypeRecord where
  code : String
  url : String
  parentUrl : Option String
  isAbstract : Bool
deriving DecidableEq, Repr

/-- The Type Hierarchy Oracle: resolves a type identifier (name, id or URL)
to a full type record, or reports absence. -/
def Oracle : Type := String → Option TypeRecord

/-- One entry of an element's allowed-type list: a type code plus allowed
profile URLs (value shapes) or target URLs (reference and canonical
shapes). -/
structure ElementDefinitionType where
  code : String
  profiles : List String
  targetProfiles : List String
deriving DecidableEq, Repr

/-- A requested constraining type of an OnlyRule: an identifier flagged as
plain value, reference or canonical. -/
structure OnlyRuleType where
  type : String
  isReference : Bool
  isCanonical : Bool
deriving DecidableEq, Repr

/-- The element state mutated by constrainType: its ordered type list. -/
structure ElementDef where
  type : List ElementDefinitionType
deriving DecidableEq, Repr

/-- The failure taxonomy of the Type Constraint Resolver. -/
inductive ConstrainError where
  | typeNotFound (t : String)
  | invalidType (t : String)
  | invalidTarget (t : String)
  | nonAbstractParent (parent child : String)
deriving DecidableEq, Repr

/-- The three slot and request shapes. -/
inductive Shape where
  | value
  | ref
  | canon
deriving DecidableEq, Repr

/-- Shape of a slot: Reference and CodeableReference codes are
reference-shaped, the canonical code is canonical-shaped, everything else is
a direct value type. -/
def slotShape (t : ElementDefinitionType) : Shape :=
  if t.code = "Reference" ∨ t.code = "CodeableReference" then .ref
  else if t.code = "canonical" then .canon
  else .value

/-- Shape of a request, from its flags. -/
def reqShape (r : OnlyRuleType) : Shape :=
  if r.isReference then .ref else if r.isCanonical then .canon else .value

/-- Split an optionally versioned identifier name|version into its parts,
at the first bar character. -/
def splitVersionAux : List Char → List Char → String × Option String
  | acc, [] => (String.mk acc.reverse, none)
  | acc, c :: rest =>
    if c = Char.ofNat 124 then (String.mk acc.reverse, some (String.mk rest))
    else splitVersionAux (c :: acc) rest

def splitVersion (s : String) : String × Option String :=
  splitVersionAux [] s.data

/-- Reattach a version marker to a canonical URL. -/
def withVer (url : String) : Option String → String
  | some v => url ++ "|" ++ v
  | none => url

/-- The ancestor chain of a type record, following parent URLs through the
oracle, fuel-bounded. -/
def lineage (oracle : Oracle) : Nat → TypeRecord → List TypeRecord
  | 0, tr => [tr]
  | fuel + 1, tr =>
    tr :: (match tr.parentUrl with
      | some pu =>
        match oracle pu with
        | some pr => lineage oracle fuel pr
        | none => []
      | none => [])

/-- How a requested type relates to an existing slot code or target. -/
inductive MatchKind where
  | identical
  | profileOf
  | specializationOf
deriving DecidableEq, Repr

/-- Match of a requested record against a value slot code S: identical when
the URLs agree, a profile when the codes agree, a specialization when the
ancestor chain of the request reaches the URL of S. -/
def valueMatch (oracle : Oracle) (fuel : Nat) (tr : TypeRecord) (S : String) :
    Option MatchKind :=
  match oracle S with
  | none => none
  | some sRec =>
    if tr.url = sRec.url then some .identical
    else if tr.code = sRec.code then some .profileOf
    else if (lineage oracle fuel tr).any (fun a => decide (a.url = sRec.url)) then
      some .specializationOf
    else none

/-- Is the record the base type for its own code (then narrowing keeps the
bare code), as opposed to a profile (then the URL is recorded). -/
def isBaseType (oracle : Oracle) (tr : TypeRecord) : Bool :=
  match oracle tr.code with
  | some b => decide (b.url = tr.url)
  | none => false

/-- The narrowed slot contributed by one value-shaped request. -/
def narrowCandidate (oracle : Oracle) (tr : TypeRecord) : ElementDefinitionType :=
  if isBaseType oracle tr then { code := tr.code, profiles := [], targetProfiles := [] }
  else { code := tr.code, profiles := [tr.url], targetProfiles := [] }

/-- Rule 5: a specialization of a value slot is legal only when the slot
code is declared abstract by the oracle. -/
def checkValueLegal (oracle : Oracle) (fuel : Nat) (tr : TypeRecord) (S : String) :
    Except ConstrainError Unit :=
  match valueMatch oracle fuel tr S, oracle S with
  | some .specializationOf, some sRec =>
    if sRec.isAbstract then .ok () else .error (.nonAbstractParent S tr.code)
  | _, _ => .ok ()

/-- Rule 6: the nearest allowed ancestor of the request within a target
list, together with the kind of the match. -/
def targetMatch (oracle : Oracle) (fuel : Nat) (tr : TypeRecord) (targets : List String) :
    Option (TypeRecord × MatchKind) :=
  match (lineage oracle fuel tr).find?
      (fun a => targets.any (fun t => decide ((splitVersion t).1 = a.url))) with
  | none => none
  | some A =>
    some (A, if A.url = tr.url then .identical
      else if tr.code = A.code then .profileOf else .specializationOf)

/-- Rule 6 legality: a specialization along a target chain requires the
nearest allowed ancestor to be abstract. -/
def checkTargetLegal (tr A : TypeRecord) (k : MatchKind) : Except ConstrainError Unit :=
  match k with
  | .specializationOf =>
    if A.isAbstract then .ok () else .error (.nonAbstractParent A.code tr.code)
  | _ => .ok ()

/-- Step 1: resolve a requested identifier through the oracle, keeping its
version marker; an unresolvable identifier fails with TypeNotFound. -/
def resolveReq (oracle : Oracle) (r : OnlyRuleType) :
    Except ConstrainError (TypeRecord × Option String) :=
  match oracle (splitVersion r.type).1 with
  | none => .error (.typeNotFound (splitVersion r.type).1)
  | some tr => .ok (tr, (splitVersion r.type).2)

/-- What one request contributes to a slot: a narrowed value slot or one
more allowed target URL. -/
inductive Contribution where
  | valueC (t : ElementDefinitionType)
  | targetC (url : String)
deriving DecidableEq, Repr

/-- First slot, with its index, whose value shape matches the request. -/
def findValueSlot (oracle : Oracle) (fuel : Nat) (tr : TypeRecord) :
    List ElementDefinitionType → Nat → Option (Nat × ElementDefinitionType)
  | [], _ => none
  | s :: rest, i =>
    if slotShape s = .value ∧ (valueMatch oracle fuel tr s.code).isSome then some (i, s)
    else findValueSlot oracle fuel tr rest (i + 1)

/-- First slot of the given code whose target list can absorb the request
(rule 7 is implemented by searching exact Reference slots before
CodeableReference slots). -/
def findTargetSlotOfCode (oracle : Oracle) (fuel : Nat) (tr : TypeRecord) (code : String) :
    List ElementDefinitionType → Nat → Option (Nat × ElementDefinitionType)
  | [], _ => none
  | s :: rest, i =>
    if s.code = code ∧ (targetMatch oracle fuel tr s.targetProfiles).isSome then some (i, s)
    else findTargetSlotOfCode oracle fuel tr code rest (i + 1)

/-- Slot lookup for a reference request: exact Reference shape first, then
CodeableReference (rule 7). -/
def findRefSlot (oracle : Oracle) (fuel : Nat) (tr : TypeRecord)
    (slots : List ElementDefinitionType) : Option (Nat × ElementDefinitionType) :=
  match findTargetSlotOfCode oracle fuel tr ("Reference") slots 0 with
  | some is => some is
  | none => findTargetSlotOfCode oracle fuel tr ("CodeableReference") slots 0

/-- Steps 4 to 7 for one request without a targetType: locate the first
compatible slot, enforce legality, and emit the contribution. -/
def processReq (oracle : Oracle) (fuel : Nat) (slots : List ElementDefinitionType)
    (r : OnlyRuleType) : Except ConstrainError (Nat × Contribution) :=
  match resolveReq oracle r with
  | .error e => .error e
  | .ok (tr, ver) =>
    match reqShape r with
    | .value =>
      match findValueSlot oracle fuel tr slots 0 with
      | none => .error (.invalidType r.type)
      | some (i, s) =>
        match checkValueLegal oracle fuel tr s.code with
        | .error e => .error e
        | .ok _ => .ok (i, .valueC (narrowCandidate oracle tr))
    | .ref =>
      match findRefSlot oracle fuel tr slots with
      | none => .error (.invalidType r.type)
      | some (i, s) =>
        match targetMatch oracle fuel tr s.targetProfiles with
        | none => .error (.invalidType r.type)
        | some (A, k) =>
          match checkTargetLegal tr A k with
          | .error e => .error e
          | .ok _ => .ok (i, .targetC (withVer tr.url ver))
    | .canon =>
      match findTargetSlotOfCode oracle fuel tr ("canonical") slots 0 with
      | none => .error (.invalidType r.type)
      | some (i, s) =>
        match targetMatch oracle fuel tr s.targetProfiles with
        | none => .error (.invalidType r.type)
        | some (A, k) =>
          match checkTargetLegal tr A k with
          | .error e => .error e
          | .ok _ => .ok (i, .targetC (withVer tr.url ver))

/-- Collect the slot match of every request, failing fast. -/
def collectMatches (oracle : Oracle) (fuel : Nat) (slots : List ElementDefinitionType) :
    List OnlyRuleType → Except ConstrainError (List (Nat × Contribution))
  | [] => .ok []
  | r :: rest =>
    match processReq oracle fuel slots r with
    | .error e => .error e
    | .ok m =>
      match collectMatches oracle fuel slots rest with
      | .error e => .error e
      | .ok ms => .ok (m :: ms)

/-- Merge the value candidates contributed to one slot: group by code in
first-occurrence order and append profile URLs in request order. -/
def mergeAux : Nat → List ElementDefinitionType → List ElementDefinitionType
  | 0, _ => []
  | _, [] => []
  | fuel + 1, t :: rest =>
    { code := t.code,
      profiles := t.profiles ++
        ((rest.filter (fun u => decide (u.code = t.code))).map (fun u => u.profiles)).flatten,
      targetProfiles := [] } ::
      mergeAux fuel (rest.filter (fun u => decide (u.code ≠ t.code)))

def mergeValueCandidates (l : List ElementDefinitionType) : List ElementDefinitionType :=
  mergeAux l.length l

def valueContribs (cs : List Contribution) : List ElementDefinitionType :=
  cs.filterMap (fun c => match c with | .valueC t => some t | _ => none)

def targetContribs (cs : List Contribution) : List String :=
  cs.filterMap (fun c => match c with | .targetC u => some u | _ => none)

/-- Rule 8 without a targetType: the result is the narrowed slots in
original slot order (the ordering fixed by the repository test suite), one
entry group per matched slot; slots untouched by any request are dropped. -/
def assemble (slots : List ElementDefinitionType) (ms : List (Nat × Contribution)) :
    List ElementDefinitionType :=
  ((slots.enum.map (fun si =>
    let cs := (ms.filter (fun m => decide (m.1 = si.1))).map (fun m => m.2)
    if cs.isEmpty then []
    else if slotShape si.2 = .value then mergeValueCandidates (valueContribs cs)
    else [{ code := si.2.code, profiles := si.2.profiles,
            targetProfiles := targetContribs cs }])).flatten)

/-- The whole call without a targetType. -/
def constrainTypeNoTarget (oracle : Oracle) (fuel : Nat)
    (slots : List ElementDefinitionType) (reqs : List OnlyRuleType) :
    Except ConstrainError (List ElementDefinitionType) :=
  match collectMatches oracle fuel slots reqs with
  | .error e => .error e
  | .ok ms => .ok (assemble slots ms)

/-- Step 3: locate the single slot addressed by the targetType, by slot code
or by membership of the target URL in the slot target list. -/
def findAddressedSlot (ttr : TypeRecord) :
    List ElementDefinitionType → Nat → Option (Nat × ElementDefinitionType)
  | [], _ => none
  | s :: rest, i =>
    if s.code = ttr.code ∨ s.targetProfiles.any (fun t => decide ((splitVersion t).1 = ttr.url)) then
      some (i, s)
    else findAddressedSlot ttr rest (i + 1)

/-- Validation of one request against the addressed slot: shapes must agree
and the legality rules 5 and 6 apply against that slot alone. -/
def processReqAtTarget (oracle : Oracle) (fuel : Nat) (ttr : TypeRecord)
    (s : ElementDefinitionType) (r : OnlyRuleType) : Except ConstrainError Contribution :=
  match resolveReq oracle r with
  | .error e => .error e
  | .ok (tr, ver) =>
    match reqShape r, slotShape s with
    | .value, .value =>
      match valueMatch oracle fuel tr s.code with
      | none => .error (.invalidType r.type)
      | some _ =>
        match checkValueLegal oracle fuel tr s.code with
        | .error e => .error e
        | .ok _ => .ok (.valueC (narrowCandidate oracle tr))
    | .ref, .ref =>
      match targetMatch oracle fuel tr [ttr.url] with
      | none => .error (.invalidType r.type)
      | some (A, k) =>
        match checkTargetLegal tr A k with
        | .error e => .error e
        | .ok _ => .ok (.targetC (withVer tr.url ver))
    | .canon, .canon =>
      match targetMatch oracle fuel tr [ttr.url] with
      | none => .error (.invalidType r.type)
      | some (A, k) =>
        match checkTargetLegal tr A k with
        | .error e => .error e
        | .ok _ => .ok (.targetC (withVer tr.url ver))
    | _, _ => .error (.invalidType r.type)

def collectAtTarget (oracle : Oracle) (fuel : Nat) (ttr : TypeRecord)
    (s : ElementDefinitionType) :
    List OnlyRuleType → Except ConstrainError (List Contribution)
  | [] => .ok []
  | r :: rest =>
    match processReqAtTarget oracle fuel ttr s r with
    | .error e => .error e
    | .ok c =>
      match collectAtTarget oracle fuel ttr s rest with
      | .error e => .error e
      | .ok cs => .ok (c :: cs)

/-- Rule 8 with a targetType: the addressed slot is narrowed in place.  For
a value slot the profiles accumulate; for a reference or canonical slot the
addressed target URL is replaced, at its original position inside the
target list, by the requested target URLs. -/
def replaceSlot (ttr : TypeRecord) (s : ElementDefinitionType) (cs : List Contribution) :
    ElementDefinitionType :=
  if slotShape s = .value then
    { code := (((valueContribs cs).head?).map (fun t => t.code)).getD s.code,
      profiles := ((valueContribs cs).map (fun t => t.profiles)).flatten,
      targetProfiles := [] }
  else
    { code := s.code, profiles := s.profiles,
      targetProfiles := (s.targetProfiles.map (fun t =>
        if (splitVersion t).1 = ttr.url then targetContribs cs else [t])).flatten }

/-- The narrowing algorithm of spec section 4.2 on a type list; failures
are TypeNotFound, InvalidType, InvalidTarget and NonAbstractParent. -/
def constrainTypeList (oracle : Oracle) (fuel : Nat) (slots : List ElementDefinitionType)
    (reqs : List OnlyRuleType) (targetType : Option String) :
    Except ConstrainError (List ElementDefinitionType) :=
  match targetType with
  | none => constrainTypeNoTarget oracle fuel slots reqs
  | some tt =>
    match oracle (splitVersion tt).1 with
    | none => .error (.typeNotFound (splitVersion tt).1)
    | some ttr =>
      match findAddressedSlot ttr slots 0 with
      | none => .error (.invalidTarget tt)
      | some (i, s) =>
        match collectAtTarget oracle fuel ttr s reqs with
        | .error e => .error e
        | .ok cs => .ok (slots.set i (replaceSlot ttr s cs))

/-- constrainType as a state transition on the element: the type list is
committed only on success, and on failure the element is returned
untouched. -/
def constrainType (oracle : Oracle) (fuel : Nat) (el : ElementDef)
    (reqs : List OnlyRuleType) (targetType : Option String) :
    Except ConstrainError ElementDef × ElementDef :=
  match constrainTypeList oracle fuel el.type reqs targetType with
  | .ok newType => (.ok { type := newType }, { type := newType })
  | .error e => (.error e, el)

/-- A small concrete type-hierarchy oracle used by the witnesses below:
Quantity is concrete with profile SimpleQuantity and specialization
Duration; Resource is abstract with specialization Patient. -/
def oracleW : Oracle := fun s =>
  if s = "Quantity" ∨ s = "u/Quantity" then
    some { code := "Quantity", url := "u/Quantity", parentUrl := none, isAbstract := false }
  else if s = "SimpleQuantity" then
    some { code := "Quantity", url := "u/SimpleQuantity", parentUrl := some ("u/Quantity"),
           isAbstract := false }
  else if s = "Duration" then
    some { code := "Duration", url := "u/Duration", parentUrl := some ("u/Quantity"),
           isAbstract := false }
  else if s = "Resource" ∨ s = "u/Resource" then
    some { code := "Resource", url := "u/Resource", parentUrl := none, isAbstract := true }
  else if s = "Patient" then
    some { code := "Patient", url := "u/Patient", parentUrl := some ("u/Resource"),
           isAbstract := false }
  else if s = "CodeableConcept" then
    some { code := "CodeableConcept", url := "u/CodeableConcept", parentUrl := none,
           isAbstract := false }
  else none

def elW : ElementDef :=
  { type := [{ code := "Quantity", profiles := [], targetProfiles := [] },
             { code := "CodeableConcept", profiles := [], targetProfiles := [] }] }

/-! ### Claim C1: atomicity of failing constrainType calls -/

/-- C1: every failing constrainType call (TypeNotFound, InvalidType,
InvalidTarget or NonAbstractParent) leaves the element type list exactly as
it was before the call: the narrowed list is committed only on success. -/
theorem constrainType_failure_atomic (oracle : Oracle) (fuel : Nat) (el : ElementDef)
    (reqs : List OnlyRuleType) (tt : Option String) (e : ConstrainError)
    (h : (constrainType oracle fuel el reqs tt).1 = .error e) :
    (constrainType oracle fuel el reqs tt).2 = el := by
  unfold constrainType at h ⊢
  cases hh : constrainTypeList oracle fuel el.type reqs tt with
  | ok l =>
    rw [hh] at h
    exact absurd (show (Except.ok { type := l } : Except ConstrainError ElementDef) =
      .error e from h) (by simp)
  | error e2 => rfl

/-- Witness for C1: a call failing with TypeNotFound at a concrete element
leaves the element unchanged. -/
theorem constrainType_failure_atomic_witness :
    (constrainType oracleW 5 elW
        [{ type := "Quantity", isReference := false, isCanonical := false },
         { type := "Monocle", isReference := false, isCanonical := false }] none).1 =
      .error (.typeNotFound ("Monocle")) ∧
    (constrainType oracleW 5 elW
        [{ type := "Quantity", isReference := false, isCanonical := false },
         { type := "Monocle", isReference := false, isCanonical := false }] none).2 = elW :=
  ⟨rfl, constrainType_failure_atomic oracleW 5 elW _ none (.typeNotFound ("Monocle")) rfl⟩

/-! ### Claim C5: the abstract-parent rule for value slots -/

/-- C5: at a value-shaped slot, a requested specialization of the slot code
is accepted exactly when the oracle declares the slot code abstract;
specializing a concrete slot code fails with NonAbstractParent, while a
profile of the slot code always succeeds. -/
theorem constrainType_abstract_rule (oracle : Oracle) (fuel : Nat) (S : String)
    (r : OnlyRuleType) (tr sRec : TypeRecord)
    (hshape : reqShape r = .value)
    (hres : resolveReq oracle r = .ok (tr, none))
    (hslot : slotShape { code := S, profiles := [], targetProfiles := [] } = .value)
    (hS : oracle S = some sRec) :
    (valueMatch oracle fuel tr S = some .specializationOf → sRec.isAbstract = false →
      constrainTypeList oracle fuel [{ code := S, profiles := [], targetProfiles := [] }] [r] none =
        .error (.nonAbstractParent S tr.code)) ∧
    (valueMatch oracle fuel tr S = some .specializationOf → sRec.isAbstract = true →
      ∃ out, constrainTypeList oracle fuel
        [{ code := S, profiles := [], targetProfiles := [] }] [r] none = .ok out) ∧
    (valueMatch oracle fuel tr S = some .profileOf →
      ∃ out, constrainTypeList oracle fuel
        [{ code := S, profiles := [], targetProfiles := [] }] [r] none = .ok out) := by
  refine ⟨?_, ?_, ?_⟩
  · intro hm habs
    simp only [constrainTypeList, constrainTypeNoTarget, collectMatches, processReq, hres,
      hshape, findValueSlot, hslot, checkValueLegal, hm, hS, habs, Option.isSome_some,
      and_true, true_and, if_true, if_pos, reduceIte]
    simp [hm, habs]
  · intro hm habs
    have hred : constrainTypeList oracle fuel
        [{ code := S, profiles := [], targetProfiles := [] }] [r] none =
        .ok (assemble [{ code := S, profiles := [], targetProfiles := [] }]
          [(0, .valueC (narrowCandidate oracle tr))]) := by
      simp only [constrainTypeList, constrainTypeNoTarget, collectMatches, processReq, hres,
        hshape, findValueSlot, hslot, checkValueLegal, hm, hS, habs]
      simp [hm, habs, hS]
    exact ⟨_, hred⟩
  · intro hm
    have hred : constrainTypeList oracle fuel
        [{ code := S, profiles := [], targetProfiles := [] }] [r] none =
        .ok (assemble [{ code := S, profiles := [], targetProfiles := [] }]
          [(0, .valueC (narrowCandidate oracle tr))]) := by
      simp only [constrainTypeList, constrainTypeNoTarget, collectMatches, processReq, hres,
        hshape, findValueSlot, hslot, checkValueLegal, hm, hS]
      simp [hm, hS]
    exact ⟨_, hred⟩

/-- Witness for C5: Duration (specialization of concrete Quantity) fails
with NonAbstractParent; Patient (specialization of abstract Resource)
succeeds; SimpleQuantity (profile of concrete Quantity) succeeds. -/
theorem constrainType_abstract_rule_witness :
    constrainTypeList oracleW 3 [{ code := "Quantity", profiles := [], targetProfiles := [] }]
        [{ type := "Duration", isReference := false, isCanonical := false }] none =
      .error (.nonAbstractParent ("Quantity") ("Duration")) ∧
    (∃ out, constrainTypeList oracleW 3
        [{ code := "Resource", profiles := [], targetProfiles := [] }]
        [{ type := "Patient", isReference := false, isCanonical := false }] none = .ok out) ∧
    (∃ out, constrainTypeList oracleW 3
        [{ code := "Quantity", profiles := [], targetProfiles := [] }]
        [{ type := "SimpleQuantity", isReference := false, isCanonical := false }] none =
      .ok out) :=
  ⟨(constrainType_abstract_rule oracleW 3 ("Quantity")
      { type := "Duration", isReference := false, isCanonical := false }
      { code := "Duration", url := "u/Duration", parentUrl := some ("u/Quantity"),
        isAbstract := false }
      { code := "Quantity", url := "u/Quantity", parentUrl := none, isAbstract := false }
      rfl rfl rfl rfl).1 rfl rfl,
   (constrainType_abstract_rule oracleW 3 ("Resource")
      { type := "Patient", isReference := false, isCanonical := false }
      { code := "Patient", url := "u/Patient", parentUrl := some ("u/Resource"),
        isAbstract := false }
      { code := "Resource", url := "u/Resource", parentUrl := none, isAbstract := true }
      rfl rfl rfl rfl).2.1 rfl rfl,
   (constrainType_abstract_rule oracleW 3 ("Quantity")
      { type := "SimpleQuantity", isReference := false, isCanonical := false }
      { code := "Quantity", url := "u/SimpleQuantity", parentUrl := some ("u/Quantity"),
        isAbstract := false }
      { code := "Quantity", url := "u/Quantity", parentUrl := none, isAbstract := false }
      rfl rfl rfl rfl).2.2 rfl⟩

/-! ### Claim C6: frame property of constrainType with a targetType -/

theorem findAddressedSlot_spec (ttr : TypeRecord) :
    ∀ (l : List ElementDefinitionType) (k i : Nat) (s : ElementDefinitionType),
      findAddressedSlot ttr l k = some (i, s) →
      ∃ j, i = k + j ∧ j < l.length ∧ l.get? j = some s := by
  intro l
  induction l with
  | nil => intro k i s h; exact absurd h (by simp [findAddressedSlot])
  | cons a l ih =>
    intro k i s h
    simp only [findAddressedSlot] at h
    by_cases hc : a.code = ttr.code ∨
        a.targetProfiles.any (fun t => decide ((splitVersion t).1 = ttr.url)) = true
    · rw [if_pos hc] at h
      have h2 := Option.some.inj h
      obtain ⟨rfl, rfl⟩ : k = i ∧ a = s := ⟨congrArg Prod.fst h2, congrArg Prod.snd h2⟩
      exact ⟨0, by omega, by simp, rfl⟩
    · rw [if_neg hc] at h
      obtain ⟨j, hij, hj, hget⟩ := ih (k + 1) i s h
      exact ⟨j + 1, by omega, by simp only [List.length_cons]; omega, by simpa using hget⟩

theorem get?_set_of_ne {α : Type} (a : α) :
    ∀ (l : List α) (i j : Nat), i ≠ j → (l.set i a).get? j = l.get? j := by
  intro l
  induction l with
  | nil => intro i j _; simp
  | cons x l ih =>
    intro i j h
    cases i with
    | zero =>
      cases j with
      | zero => exact absurd rfl h
      | succ j => simp [List.set]
    | succ i =>
      cases j with
      | zero => simp [List.set]
      | succ j => simpa [List.set] using ih i j (by omega)

/-- C6: a successful constrainType call with a targetType narrows only the
addressed slot, in place at its original position; every other slot of the
element type list is unchanged and keeps its original relative order. -/
theorem constrainType_targetType_frame (oracle : Oracle) (fuel : Nat)
    (slots : List ElementDefinitionType) (reqs : List OnlyRuleType) (tt : String)
    (out : List ElementDefinitionType)
    (h : constrainTypeList oracle fuel slots reqs (some tt) = .ok out) :
    out.length = slots.length ∧
    ∃ i, i < slots.length ∧ ∀ j, j ≠ i → out.get? j = slots.get? j := by
  simp only [constrainTypeList] at h
  split at h
  · exact absurd h (by simp)
  · rename_i ttr h1
    split at h
    · exact absurd h (by simp)
    · rename_i i s h2
      split at h
      · exact absurd h (by simp)
      · rename_i cs h3
        have hout : out = slots.set i (replaceSlot ttr s cs) := (Except.ok.inj h).symm
        obtain ⟨j0, hi0, hlt, _⟩ := findAddressedSlot_spec ttr slots 0 i s h2
        have hi : i < slots.length := by omega
        subst hout
        refine ⟨by simp, i, hi, ?_⟩
        intro j hj
        exact get?_set_of_ne _ slots i j (fun hh => hj hh.symm)

def slotsW : List ElementDefinitionType :=
  [{ code := "Quantity", profiles := [], targetProfiles := [] },
   { code := "CodeableConcept", profiles := [], targetProfiles := [] }]

def outW : List ElementDefinitionType :=
  [{ code := "Quantity", profiles := ["u/SimpleQuantity"], targetProfiles := [] },
   { code := "CodeableConcept", profiles := [], targetProfiles := [] }]

/-- Witness for C6: narrowing the Quantity slot of a two-slot choice through
targetType Quantity leaves the CodeableConcept slot untouched. -/
theorem constrainType_targetType_frame_witness :
    outW.length = slotsW.length ∧
    ∃ i, i < slotsW.length ∧ ∀ j, j ≠ i → outW.get? j = slotsW.get? j :=
  constrainType_targetType_frame oracleW 3 slotsW
    [{ type := "SimpleQuantity", isReference := false, isCanonical := false }]
    ("Quantity") outW rfl

/-!
### The Export Dependency Scheduler

Modelled from the spec: the StructureDefinition exporter is not among the
sources (only its test suite is), so the scheduler below follows section
4.3 of the specification: demand-driven export with a tri-state map, a
recursive export of locally authored parents, and per-entity failure
isolation.
-/

/-- The tri-state (plus error) export status of one entity. -/
inductive ExpStatus where
  | notStarted
  | inProgress
  | done
  | doneError
deriving DecidableEq, Repr

/-- An authored structure as the scheduler sees it: a name (which is also
its id in this reduced model) and an optional parent identifier. -/
structure LogicalDef where
  name : String
  parent : Option String
deriving DecidableEq, Repr

/-- An export artifact: id, canonical URL and resolved baseDefinition. -/
structure Artifact where
  name : String
  url : String
  baseDefinition : String
deriving DecidableEq, Repr

/-- Scheduler state: the per-entity status map, the artifact list and the
diagnostic list. -/
structure ExpState where
  status : String → ExpStatus
  arts : List Artifact
  errs : List String

/-- Canonical URL of the universal base type used when no parent is
declared. -/
def universalBaseUrl : String := "http://hl7.org/fhir/StructureDefinition/Base"

def setStatus (f : String → ExpStatus) (k : String) (v : ExpStatus) : String → ExpStatus :=
  fun n => if n = k then v else f n

/-- Parent lookup in the catalog, by name or canonical URL (the fishing
step of the scheduler). -/
def findParent (base : String) (catalog : List LogicalDef) (p : String) : Option LogicalDef :=
  catalog.find? (fun l => decide (l.name = p ∨ getUrl base l.name = p))

/-- Record a successful export: mark done and append the artifact.  An
entity that is already resolved is never touched again. -/
def succeed (base : String) (e : LogicalDef) (baseDef : String) (st : ExpState) : ExpState :=
  if st.status e.name = .done ∨ st.status e.name = .doneError then st
  else
    { status := setStatus st.status e.name .done,
      arts := st.arts ++
        [{ name := e.name, url := getUrl base e.name, baseDefinition := baseDef }],
      errs := st.errs }

/-- Record a failed export: mark done-with-error and append a diagnostic.
An entity that is already resolved is never touched again. -/
def failE (e : LogicalDef) (msg : String) (st : ExpState) : ExpState :=
  if st.status e.name = .done ∨ st.status e.name = .doneError then st
  else
    { status := setStatus st.status e.name .doneError,
      arts := st.arts,
      errs := st.errs ++ [msg] }

/-- Mark an entity in progress. -/
def markIP (e : LogicalDef) (st : ExpState) : ExpState :=
  { st with status := setStatus st.status e.name .inProgress }

/-- Demand-driven export of one entity: skip when memoized, mark
in-progress, resolve the declared parent (recursively exporting a locally
authored parent first, failing on cycles, on missing parents and on failed
parents), then commit the artifact or the error. -/
def exportOne (base : String) (extFn : String → Option String) (catalog : List LogicalDef) :
    Nat → LogicalDef → ExpState → ExpState
  | fuel, e, st =>
    match st.status e.name with
    | .done => st
    | .doneError => st
    | .inProgress => failE e (e.name ++ " revisited while in progress") st
    | .notStarted =>
      match fuel with
      | 0 => failE e (e.name ++ " ran out of fuel") st
      | fuel + 1 =>
        match e.parent with
        | none => succeed base e universalBaseUrl (markIP e st)
        | some p =>
          match findParent base catalog p with
          | some pe =>
            match (markIP e st).status pe.name with
            | .inProgress => failE e ("cyclic dependency at " ++ e.name) (markIP e st)
            | .done => succeed base e (getUrl base pe.name) (markIP e st)
            | .doneError => failE e ("parent failed " ++ p) (markIP e st)
            | .notStarted =>
              match (exportOne base extFn catalog fuel pe (markIP e st)).status pe.name with
              | .done => succeed base e (getUrl base pe.name)
                  (exportOne base extFn catalog fuel pe (markIP e st))
              | _ => failE e ("parent failed " ++ p)
                  (exportOne base extFn catalog fuel pe (markIP e st))
          | none =>
            match extFn p with
            | some u => succeed base e u (markIP e st)
            | none => failE e ("parent not found " ++ p) (markIP e st)

def initState : ExpState :=
  { status := fun _ => .notStarted, arts := [], errs := [] }

/-- The export run: process every requested entity in declaration order. -/
def exportAll (base : String) (extFn : String → Option String)
    (catalog : List LogicalDef) : ExpState :=
  catalog.foldl (fun st e => exportOne base extFn catalog (catalog.length + 1) e st) initState

def namesOf (catalog : List LogicalDef) : List String := catalog.map (fun e => e.name)

/-- Number of names currently carrying a given status. -/
def countStatus (names : List String) (f : String → ExpStatus) (v : ExpStatus) : Nat :=
  match names with
  | [] => 0
  | n :: rest => (if f n = v then 1 else 0) + countStatus rest f v

/-- The run invariant: one artifact per done entity, at least one
diagnostic per done-with-error entity. -/
def Inv (names : List String) (st : ExpState) : Prop :=
  st.arts.length = countStatus names st.status .done ∧
  countStatus names st.status .doneError ≤ st.errs.length

theorem countStatus_congr (names : List String) (f g : String → ExpStatus) (v : ExpStatus)
    (h : ∀ n ∈ names, f n = g n) : countStatus names f v = countStatus names g v := by
  induction names with
  | nil => rfl
  | cons a l ih =>
    simp only [countStatus]
    rw [h a (List.mem_cons_self a l), ih (fun n hn => h n (List.mem_cons_of_mem a hn))]

theorem countStatus_set (names : List String) (hnd : names.Nodup) (f : String → ExpStatus)
    (k : String) (hk : k ∈ names) (v w : ExpStatus) :
    countStatus names (setStatus f k v) w + (if f k = w then 1 else 0) =
      countStatus names f w + (if v = w then 1 else 0) := by
  induction names with
  | nil => simp at hk
  | cons a l ih =>
    rcases List.mem_cons.mp hk with rfl | hk2
    · have hknotin : k ∉ l := (List.nodup_cons.mp hnd).1
      have h1 : countStatus l (setStatus f k v) w = countStatus l f w :=
        countStatus_congr l _ _ w (fun n hn => by
          have hnk : n ≠ k := fun hnk => hknotin (hnk ▸ hn)
          simp [setStatus, hnk])
      have h2 : setStatus f k v k = v := by unfold setStatus; rw [if_pos rfl]
      simp only [countStatus, h1, h2]
      omega
    · have hne : a ≠ k := fun hak => (List.nodup_cons.mp hnd).1 (hak ▸ hk2)
      have h2 : setStatus f k v a = f a := by unfold setStatus; rw [if_neg hne]
      have h3 := ih (List.nodup_cons.mp hnd).2 hk2
      simp only [countStatus, h2]
      omega

theorem countStatus_all_zero (names : List String) (f : String → ExpStatus) (v : ExpStatus)
    (h : ∀ n ∈ names, f n ≠ v) : countStatus names f v = 0 := by
  induction names with
  | nil => rfl
  | cons a l ih =>
    simp only [countStatus]
    rw [if_neg (h a (List.mem_cons_self a l)), ih (fun n hn => h n (List.mem_cons_of_mem a hn))]

theorem countStatus_split (names : List String) (f : String → ExpStatus)
    (h : ∀ n ∈ names, f n = .done ∨ f n = .doneError) :
    countStatus names f .done + countStatus names f .doneError = names.length := by
  induction names with
  | nil => rfl
  | cons a l ih =>
    have ihl := ih (fun n hn => h n (List.mem_cons_of_mem a hn))
    simp only [countStatus, List.length_cons]
    rcases h a (List.mem_cons_self a l) with ha | ha <;> rw [ha] <;> simp <;> omega

theorem succeed_status_own (base : String) (e : LogicalDef) (bd : String) (st : ExpState) :
    (succeed base e bd st).status e.name = .done ∨
      (succeed base e bd st).status e.name = .doneError := by
  unfold succeed
  by_cases hr : st.status e.name = .done ∨ st.status e.name = .doneError
  · rw [if_pos hr]; exact hr
  · rw [if_neg hr]; left; simp [setStatus]

theorem failE_status_own (e : LogicalDef) (msg : String) (st : ExpState) :
    (failE e msg st).status e.name = .done ∨ (failE e msg st).status e.name = .doneError := by
  unfold failE
  by_cases hr : st.status e.name = .done ∨ st.status e.name = .doneError
  · rw [if_pos hr]; exact hr
  · rw [if_neg hr]; right; simp [setStatus]

theorem succeed_status_other (base : String) (e : LogicalDef) (bd : String) (st : ExpState)
    (n : String) (hn : n ≠ e.name) : (succeed base e bd st).status n = st.status n := by
  unfold succeed
  by_cases hr : st.status e.name = .done ∨ st.status e.name = .doneError
  · rw [if_pos hr]
  · rw [if_neg hr]; simp [setStatus, hn]

theorem failE_status_other (e : LogicalDef) (msg : String) (st : ExpState)
    (n : String) (hn : n ≠ e.name) : (failE e msg st).status n = st.status n := by
  unfold failE
  by_cases hr : st.status e.name = .done ∨ st.status e.name = .doneError
  · rw [if_pos hr]
  · rw [if_neg hr]; simp [setStatus, hn]

theorem succeed_status_frozen (base : String) (e : LogicalDef) (bd : String) (st : ExpState)
    (n : String) (hn : st.status n = .done ∨ st.status n = .doneError) :
    (succeed base e bd st).status n = st.status n := by
  by_cases hne : n = e.name
  · subst hne
    unfold succeed
    rw [if_pos hn]
  · exact succeed_status_other base e bd st n hne

theorem failE_status_frozen (e : LogicalDef) (msg : String) (st : ExpState)
    (n : String) (hn : st.status n = .done ∨ st.status n = .doneError) :
    (failE e msg st).status n = st.status n := by
  by_cases hne : n = e.name
  · subst hne
    unfold failE
    rw [if_pos hn]
  · exact failE_status_other e msg st n hne

theorem Inv_succeed (names : List String) (hnd : names.Nodup) (base : String)
    (e : LogicalDef) (he : e.name ∈ names) (bd : String) (st : ExpState)
    (h : Inv names st) : Inv names (succeed base e bd st) := by
  unfold succeed
  by_cases hr : st.status e.name = .done ∨ st.status e.name = .doneError
  · rw [if_pos hr]; exact h
  · rw [if_neg hr]
    push_neg at hr
    obtain ⟨h1, h2⟩ := h
    constructor
    · have hc := countStatus_set names hnd st.status e.name he .done .done
      rw [if_neg hr.1, if_pos rfl] at hc
      simp only [List.length_append, List.length_cons, List.length_nil]
      omega
    · have hc := countStatus_set names hnd st.status e.name he .done .doneError
      rw [if_neg hr.2, if_neg (by decide : (ExpStatus.done = ExpStatus.doneError) → False)] at hc
      show countStatus names (setStatus st.status e.name .done) .doneError ≤ st.errs.length
      omega

theorem Inv_failE (names : List String) (hnd : names.Nodup) (e : LogicalDef)
    (he : e.name ∈ names) (msg : String) (st : ExpState)
    (h : Inv names st) : Inv names (failE e msg st) := by
  unfold failE
  by_cases hr : st.status e.name = .done ∨ st.status e.name = .doneError
  · rw [if_pos hr]; exact h
  · rw [if_neg hr]
    push_neg at hr
    obtain ⟨h1, h2⟩ := h
    constructor
    · have hc := countStatus_set names hnd st.status e.name he .doneError .done
      rw [if_neg hr.1, if_neg (by decide : (ExpStatus.doneError = ExpStatus.done) → False)] at hc
      show st.arts.length = countStatus names (setStatus st.status e.name .doneError) .done
      omega
    · have hc := countStatus_set names hnd st.status e.name he .doneError .doneError
      rw [if_neg hr.2, if_pos rfl] at hc
      show countStatus names (setStatus st.status e.name .doneError) .doneError ≤
        (st.errs ++ [msg]).length
      simp only [List.length_append, List.length_cons, List.length_nil]
      omega

theorem markIP_status_other (e : LogicalDef) (st : ExpState) (n : String)
    (hn : n ≠ e.name) : (markIP e st).status n = st.status n := by
  simp [markIP, setStatus, hn]

theorem markIP_status_own (e : LogicalDef) (st : ExpState) :
    (markIP e st).status e.name = .inProgress := by
  simp [markIP, setStatus]

theorem Inv_markInProgress (names : List String) (hnd : names.Nodup) (st : ExpState)
    (e : LogicalDef) (he : e.name ∈ names) (hns : st.status e.name = .notStarted)
    (h : Inv names st) :
    Inv names { st with status := setStatus st.status e.name .inProgress } := by
  obtain ⟨h1, h2⟩ := h
  constructor
  · have hc := countStatus_set names hnd st.status e.name he .inProgress .done
    rw [hns] at hc
    rw [if_neg (by decide : (ExpStatus.notStarted = ExpStatus.done) → False),
      if_neg (by decide : (ExpStatus.inProgress = ExpStatus.done) → False)] at hc
    show st.arts.length = countStatus names (setStatus st.status e.name .inProgress) .done
    omega
  · have hc := countStatus_set names hnd st.status e.name he .inProgress .doneError
    rw [hns] at hc
    rw [if_neg (by decide : (ExpStatus.notStarted = ExpStatus.doneError) → False),
      if_neg (by decide : (ExpStatus.inProgress = ExpStatus.doneError) → False)] at hc
    show countStatus names (setStatus st.status e.name .inProgress) .doneError ≤ st.errs.length
    omega

/-- The conjunction of guarantees one exportOne call provides, relative to
the state st0 it started from. -/
def ExpGuar (names : List String) (e : LogicalDef) (st0 R : ExpState) : Prop :=
  Inv names R ∧
  (R.status e.name = .done ∨ R.status e.name = .doneError) ∧
  (∀ n, st0.status n = .done ∨ st0.status n = .doneError → R.status n = st0.status n) ∧
  (∀ n, n ≠ e.name → st0.status n = .inProgress → R.status n = .inProgress)

theorem leaf_succeed (names : List String) (hnd : names.Nodup) (base : String)
    (e : LogicalDef) (he : e.name ∈ names) (bd : String) (st0 stb : ExpState)
    (hInvb : Inv names stb)
    (hfroz : ∀ n, st0.status n = .done ∨ st0.status n = .doneError →
      stb.status n = st0.status n)
    (hip : ∀ n, n ≠ e.name → st0.status n = .inProgress → stb.status n = .inProgress) :
    ExpGuar names e st0 (succeed base e bd stb) := by
  refine ⟨Inv_succeed names hnd base e he bd stb hInvb, succeed_status_own base e bd stb,
    ?_, ?_⟩
  · intro n hn
    have h1 := hfroz n hn
    have h2 : stb.status n = .done ∨ stb.status n = .doneError := by rw [h1]; exact hn
    rw [succeed_status_frozen base e bd stb n h2, h1]
  · intro n hne hn
    rw [succeed_status_other base e bd stb n hne]
    exact hip n hne hn

theorem leaf_fail (names : List String) (hnd : names.Nodup)
    (e : LogicalDef) (he : e.name ∈ names) (msg : String) (st0 stb : ExpState)
    (hInvb : Inv names stb)
    (hfroz : ∀ n, st0.status n = .done ∨ st0.status n = .doneError →
      stb.status n = st0.status n)
    (hip : ∀ n, n ≠ e.name → st0.status n = .inProgress → stb.status n = .inProgress) :
    ExpGuar names e st0 (failE e msg stb) := by
  refine ⟨Inv_failE names hnd e he msg stb hInvb, failE_status_own e msg stb, ?_, ?_⟩
  · intro n hn
    have h1 := hfroz n hn
    have h2 : stb.status n = .done ∨ stb.status n = .doneError := by rw [h1]; exact hn
    rw [failE_status_frozen e msg stb n h2, h1]
  · intro n hne hn
    rw [failE_status_other e msg stb n hne]
    exact hip n hne hn

/-- The markIP state satisfies the frozen and in-progress transfer
conditions relative to the original state, when the entity was not
started. -/
theorem markIP_transfer (e : LogicalDef) (st : ExpState)
    (hst : st.status e.name = .notStarted) :
    (∀ n, st.status n = .done ∨ st.status n = .doneError →
      (markIP e st).status n = st.status n) ∧
    (∀ n, n ≠ e.name → st.status n = .inProgress → (markIP e st).status n = .inProgress) := by
  constructor
  · intro n hn
    have hne : n ≠ e.name := by
      intro hcontra
      rw [hcontra, hst] at hn
      rcases hn with hn | hn <;> exact absurd hn (by decide)
    exact markIP_status_other e st n hne
  · intro n hne hn
    rw [markIP_status_other e st n hne]
    exact hn

/-- Master guarantee of exportOne, by induction on the fuel: the invariant
is preserved, the requested entity ends resolved, resolved entities stay
untouched, and in-progress marks of other entities survive. -/
theorem exportOne_spec (base : String) (extFn : String → Option String)
    (catalog : List LogicalDef) (hnd : (namesOf catalog).Nodup) :
    ∀ (fuel : Nat) (e : LogicalDef) (st : ExpState), e ∈ catalog →
      Inv (namesOf catalog) st →
      ExpGuar (namesOf catalog) e st (exportOne base extFn catalog fuel e st) := by
  intro fuel
  induction fuel with
  | zero =>
    intro e st he hinv
    have hemem : e.name ∈ namesOf catalog := List.mem_map_of_mem (fun x => x.name) he
    rw [exportOne]
    split
    · rename_i hst
      exact ⟨hinv, Or.inl hst, fun n hn => rfl, fun n hne hn => hn⟩
    · rename_i hst
      exact ⟨hinv, Or.inr hst, fun n hn => rfl, fun n hne hn => hn⟩
    · exact leaf_fail _ hnd e hemem _ st st hinv (fun n hn => rfl) (fun n hne hn => hn)
    · exact leaf_fail _ hnd e hemem _ st st hinv (fun n hn => rfl) (fun n hne hn => hn)
  | succ fuel ih =>
    intro e st he hinv
    have hemem : e.name ∈ namesOf catalog := List.mem_map_of_mem (fun x => x.name) he
    rw [exportOne]
    split
    · rename_i hst
      exact ⟨hinv, Or.inl hst, fun n hn => rfl, fun n hne hn => hn⟩
    · rename_i hst
      exact ⟨hinv, Or.inr hst, fun n hn => rfl, fun n hne hn => hn⟩
    · exact leaf_fail _ hnd e hemem _ st st hinv (fun n hn => rfl) (fun n hne hn => hn)
    · rename_i hst
      obtain ⟨hfrozIP, hipIP⟩ := markIP_transfer e st hst
      have hinvIP : Inv (namesOf catalog) (markIP e st) :=
        Inv_markInProgress (namesOf catalog) hnd st e hemem hst hinv
      split
      · exact leaf_succeed _ hnd base e hemem _ st _ hinvIP hfrozIP hipIP
      · rename_i p hp
        split
        · rename_i pe hfp
          have hpemem : pe ∈ catalog := List.mem_of_find?_eq_some hfp
          split
          · exact leaf_fail _ hnd e hemem _ st _ hinvIP hfrozIP hipIP
          · exact leaf_succeed _ hnd base e hemem _ st _ hinvIP hfrozIP hipIP
          · exact leaf_fail _ hnd e hemem _ st _ hinvIP hfrozIP hipIP
          · rename_i hpst
            obtain ⟨hinv2, hown2, hfroz2, hip2⟩ := ih pe (markIP e st) hpemem hinvIP
            have hfrozC : ∀ n, st.status n = .done ∨ st.status n = .doneError →
                (exportOne base extFn catalog fuel pe (markIP e st)).status n =
                  st.status n := by
              intro n hn
              have h1 := hfrozIP n hn
              have h2 : (markIP e st).status n = .done ∨
                  (markIP e st).status n = .doneError := by rw [h1]; exact hn
              rw [hfroz2 n h2, h1]
            have hipC : ∀ n, n ≠ e.name → st.status n = .inProgress →
                (exportOne base extFn catalog fuel pe (markIP e st)).status n =
                  .inProgress := by
              intro n hne hn
              have h1 : (markIP e st).status n = .inProgress := hipIP n hne hn
              have hnpe : n ≠ pe.name := by
                intro hcontra
                rw [hcontra] at h1
                rw [h1] at hpst
                exact absurd hpst (by decide)
              exact hip2 n hnpe h1
            cases hps2 : (exportOne base extFn catalog fuel pe (markIP e st)).status pe.name with
            | done => exact leaf_succeed _ hnd base e hemem _ st _ hinv2 hfrozC hipC
            | doneError => exact leaf_fail _ hnd e hemem _ st _ hinv2 hfrozC hipC
            | notStarted => exact leaf_fail _ hnd e hemem _ st _ hinv2 hfrozC hipC
            | inProgress => exact leaf_fail _ hnd e hemem _ st _ hinv2 hfrozC hipC
        · rename_i hfp
          split
          · rename_i u hext
            exact leaf_succeed _ hnd base e hemem _ st _ hinvIP hfrozIP hipIP
          · exact leaf_fail _ hnd e hemem _ st _ hinvIP hfrozIP hipIP

/-- Guarantee of the export loop: the invariant holds at the end, resolved
statuses persist, and every processed entity ends resolved. -/
theorem exportAll_loop_spec (base : String) (extFn : String → Option String)
    (catalog : List LogicalDef) (hnd : (namesOf catalog).Nodup) :
    ∀ (l : List LogicalDef) (st : ExpState), (∀ e ∈ l, e ∈ catalog) →
      Inv (namesOf catalog) st →
      Inv (namesOf catalog)
        (l.foldl (fun s e => exportOne base extFn catalog (catalog.length + 1) e s) st) ∧
      (∀ n, st.status n = .done ∨ st.status n = .doneError →
        (l.foldl (fun s e => exportOne base extFn catalog (catalog.length + 1) e s)
          st).status n = st.status n) ∧
      (∀ e ∈ l,
        (l.foldl (fun s e => exportOne base extFn catalog (catalog.length + 1) e s)
          st).status e.name = .done ∨
        (l.foldl (fun s e => exportOne base extFn catalog (catalog.length + 1) e s)
          st).status e.name = .doneError) := by
  intro l
  induction l with
  | nil =>
    intro st hmem hinv
    exact ⟨hinv, fun n hn => rfl, by simp⟩
  | cons e l ih =>
    intro st hmem hinv
    have he : e ∈ catalog := hmem e (List.mem_cons_self e l)
    obtain ⟨hinv1, hown1, hfroz1, hip1⟩ :=
      exportOne_spec base extFn catalog hnd (catalog.length + 1) e st he hinv
    obtain ⟨hinvF, hfrozF, hresF⟩ :=
      ih (exportOne base extFn catalog (catalog.length + 1) e st)
        (fun x hx => hmem x (List.mem_cons_of_mem e hx)) hinv1
    simp only [List.foldl_cons]
    refine ⟨hinvF, ?_, ?_⟩
    · intro n hn
      have h1 := hfroz1 n hn
      have h2 : (exportOne base extFn catalog (catalog.length + 1) e st).status n = .done ∨
          (exportOne base extFn catalog (catalog.length + 1) e st).status n = .doneError := by
        rw [h1]; exact hn
      rw [hfrozF n h2, h1]
    · intro x hx
      rcases List.mem_cons.mp hx with rfl | hx2
      · rcases hown1 with h | h
        · left
          rw [hfrozF x.name (Or.inl h), h]
        · right
          rw [hfrozF x.name (Or.inr h), h]
      · exact hresF x hx2

/-- C4: an export run over a catalog of N distinctly named entities, of
which K finish with an error, yields exactly N minus K artifacts and at
least K diagnostics; no entity failure aborts the rest of the run. -/
theorem export_counts (base : String) (extFn : String → Option String)
    (catalog : List LogicalDef) (hnd : (namesOf catalog).Nodup) :
    (exportAll base extFn catalog).arts.length +
      countStatus (namesOf catalog) (exportAll base extFn catalog).status .doneError =
      catalog.length ∧
    countStatus (namesOf catalog) (exportAll base extFn catalog).status .doneError ≤
      (exportAll base extFn catalog).errs.length := by
  have hinv0 : Inv (namesOf catalog) initState := by
    constructor
    · exact (countStatus_all_zero (namesOf catalog) initState.status .done
        (fun n hn hcon => ExpStatus.noConfusion hcon)).symm
    · have h0 := countStatus_all_zero (namesOf catalog) initState.status .doneError
        (fun n hn hcon => ExpStatus.noConfusion hcon)
      rw [h0]
      exact Nat.zero_le _
  obtain ⟨hinvF, hfrozF, hresF⟩ :=
    exportAll_loop_spec base extFn catalog hnd catalog initState (fun e he => he) hinv0
  have hinvE : Inv (namesOf catalog) (exportAll base extFn catalog) := hinvF
  have hall : ∀ n ∈ namesOf catalog,
      (exportAll base extFn catalog).status n = .done ∨
      (exportAll base extFn catalog).status n = .doneError := by
    intro n hn
    obtain ⟨e, he, rfl⟩ := List.mem_map.mp hn
    exact hresF e he
  have hsplit := countStatus_split (namesOf catalog) (exportAll base extFn catalog).status hall
  have hlen : (namesOf catalog).length = catalog.length := by simp [namesOf]
  obtain ⟨h1, h2⟩ := hinvE
  exact ⟨by omega, h2⟩

def extNone : String → Option String := fun _ => none

def catW : List LogicalDef :=
  [{ name := "Foo", parent := some ("Missing") }, { name := "Bar", parent := none }]

/-- Witness for C4: a two-entity run where Foo has an unresolvable parent
and Bar has none yields one artifact and at least one diagnostic. -/
theorem export_counts_witness :
    (exportAll ("http://m") extNone catW).arts.length +
      countStatus (namesOf catW) (exportAll ("http://m") extNone catW).status .doneError =
      catW.length ∧
    countStatus (namesOf catW) (exportAll ("http://m") extNone catW).status .doneError ≤
      (exportAll ("http://m") extNone catW).errs.length :=
  export_counts ("http://m") extNone catW (by decide)

def fooL : LogicalDef := { name := "Foo", parent := none }

def barL : LogicalDef := { name := "Bar", parent := some ("Foo") }

def bazL : LogicalDef := { name := "Baz", parent := some ("Bar") }

/-- C3: exporting Foo (no parent), Bar (parent Foo) and Baz (parent Bar)
declared in any order always yields the artifacts Foo, Bar, Baz in that
order, with the baseDefinition of Bar equal to the canonical URL of Foo and
the baseDefinition of Baz equal to the canonical URL of Bar. -/
theorem logical_export_order (l : List LogicalDef) (h : l.Perm [fooL, barL, bazL]) :
    (exportAll ("http://m") extNone l).arts =
      [{ name := "Foo", url := getUrl ("http://m") ("Foo"),
         baseDefinition := universalBaseUrl },
       { name := "Bar", url := getUrl ("http://m") ("Bar"),
         baseDefinition := getUrl ("http://m") ("Foo") },
       { name := "Baz", url := getUrl ("http://m") ("Baz"),
         baseDefinition := getUrl ("http://m") ("Bar") }] := by
  obtain ⟨a, b, c, rfl⟩ := List.length_eq_three.mp (by simpa using h.length_eq)
  have ha : a ∈ [fooL, barL, bazL] := h.subset (by simp)
  have hb : b ∈ [fooL, barL, bazL] := h.subset (by simp)
  have hc : c ∈ [fooL, barL, bazL] := h.subset (by simp)
  fin_cases ha <;> fin_cases hb <;> fin_cases hc <;>
    first
      | rfl
      | exact absurd h (by decide)

/-- Witness for C3: the fully reversed declaration order. -/
theorem logical_export_order_witness :
    (exportAll ("http://m") extNone [bazL, barL, fooL]).arts =
      [{ name := "Foo", url := getUrl ("http://m") ("Foo"),
         baseDefinition := universalBaseUrl },
       { name := "Bar", url := getUrl ("http://m") ("Bar"),
         baseDefinition := getUrl ("http://m") ("Foo") },
       { name := "Baz", url := getUrl ("http://m") ("Baz"),
         baseDefinition := getUrl ("http://m") ("Bar") }] :=
  logical_export_order [bazL, barL, fooL] (by decide)

end Sushi
